import Mathlib

/-!
Shallow embedding of the pukka schema validator (src/src/validator.ts,
src/src/types.ts and the helper module src/unnamed/part_000).

Modelling conventions:
* JavaScript runtime values are the inductive `Pukka.Value`; `undefined` and
  `null` are separate constructors, plain objects are ordered association
  lists (JS insertion order), arrays are lists.  `File` instances carry only
  their name (the validator never reads file contents).
* JS numbers are modelled as `Int`: every number the validator's claims
  exercise is an integer, and the string-to-number parser below implements
  the decimal-integer fragment of JS `Number(...)` (empty / whitespace
  strings parse to 0, as in JS).
* Exceptions thrown by a custom callback are modelled by their message
  string; the callback itself is a function from the safe data, the issues
  navigator root and the current error map to an outcome (normal or thrown),
  which is exactly the observable effect of the JS callback.
* Mutation is replaced by state passing: the error map, render target and
  safe target threaded through `validateValue` correspond to the `errors`,
  `target` and `safeTarget` parameters mutated by `validate` in the source.
-/

namespace Pukka

/-- JS runtime values (the fragment the validator manipulates). -/
inductive Value : Type where
  | vUndefined
  | vNull
  | vStr (s : String)
  | vNum (n : Int)
  | vBool (b : Bool)
  | vBigInt (n : Int)
  | vFile (name : String)
  | vArr (elems : List Value)
  | vObj (fields : List (String × Value))

/-- JS `typeof` for `Value`. -/
def typeofName : Value → String
  | .vUndefined => "undefined"
  | .vNull => "object"
  | .vStr _ => "string"
  | .vNum _ => "number"
  | .vBool _ => "boolean"
  | .vBigInt _ => "bigint"
  | .vFile _ => "object"
  | .vArr _ => "object"
  | .vObj _ => "object"

/-- helper.ts `isObject`: a value whose constructor is `Object` (plain object). -/
def isObjectV : Value → Bool
  | .vObj _ => true
  | _ => false

/-- helper.ts `isArray` (`Array.isArray`). -/
def isArrayV : Value → Bool
  | .vArr _ => true
  | _ => false

/-- JS `input == null`, true exactly on `null` and `undefined`. -/
def isNullish : Value → Bool
  | .vNull => true
  | .vUndefined => true
  | _ => false

mutual

/-- Comma-join of JS array elements (`Array.prototype.join(",")`), in which
`null` and `undefined` elements become empty strings. -/
def joinVals : List Value → String
  | [] => ""
  | [x] => joinElem x
  | x :: y :: rest => joinElem x ++ "," ++ joinVals (y :: rest)

/-- One array element inside `Array.prototype.join`. -/
def joinElem : Value → String
  | .vNull => ""
  | .vUndefined => ""
  | .vStr s => s
  | .vNum n => toString n
  | .vBool b => if b then "true" else "false"
  | .vBigInt n => toString n
  | .vFile _ => "[object File]"
  | .vObj _ => "[object Object]"
  | .vArr xs => joinVals xs

end

/-- JS `String(value)` on the modelled fragment; an array converts by
`Array.prototype.join(",")`. -/
def jsToString : Value → String
  | .vUndefined => "undefined"
  | .vNull => "null"
  | .vStr s => s
  | .vNum n => toString n
  | .vBool b => if b then "true" else "false"
  | .vBigInt n => toString n
  | .vFile _ => "[object File]"
  | .vArr xs => joinVals xs
  | .vObj _ => "[object Object]"

/-- Digit run to a natural number. -/
def digitsToNat (ds : List Char) : Nat :=
  ds.foldl (fun acc c => acc * 10 + (c.toNat - 48)) 0

/-- Decimal-integer fragment of JS string-to-number parsing, applied to a
trimmed character list: an optional sign followed by digits.  The empty
string parses to 0, as JS `Number("")` does. -/
def parseIntCore : List Char → Option Int
  | [] => some 0
  | '-' :: ds => if ds ≠ [] ∧ ds.all Char.isDigit then some (-(digitsToNat ds : Int)) else none
  | '+' :: ds => if ds ≠ [] ∧ ds.all Char.isDigit then some (digitsToNat ds : Int) else none
  | ds => if ds.all Char.isDigit then some (digitsToNat ds : Int) else none

/-- JS `Number(s)` for a string `s`, on the decimal-integer fragment:
whitespace is trimmed, the empty string is 0, otherwise an optional sign
followed by digits; anything else is NaN (`none`). -/
def jsStrToNum (s : String) : Option Int :=
  parseIntCore ((s.data.dropWhile Char.isWhitespace).reverse.dropWhile Char.isWhitespace).reverse

/-- JS `Number(value)` (NaN is `none`) on the modelled fragment.  Arrays of
length one never reach this function: `coerce` unwraps them first. -/
def jsToNumber : Value → Option Int
  | .vNum n => some n
  | .vStr s => jsStrToNum s
  | .vBool b => some (if b then 1 else 0)
  | .vNull => some 0
  | .vUndefined => none
  | .vBigInt n => some n
  | .vArr [] => some 0
  | .vArr (_ :: _) => none
  | .vObj _ => none
  | .vFile _ => none

/-- JS `BigInt(value)` (`none` models a thrown conversion error), on the
modelled fragment: strings must be (signed) decimal integers, booleans map
to 0 and 1, `null`, `undefined`, non-empty arrays, plain objects and files
throw. -/
def jsToBigInt : Value → Option Int
  | .vBigInt n => some n
  | .vNum n => some n
  | .vStr s => jsStrToNum s
  | .vBool b => some (if b then 1 else 0)
  | .vNull => none
  | .vUndefined => none
  | .vArr [] => some 0
  | .vArr (_ :: _) => none
  | .vObj _ => none
  | .vFile _ => none

/-- Membership of validator.ts `TRUE = ["true", "1", 1]` under JS `includes`
(strict equality). -/
def isTrueLiteral : Value → Bool
  | .vStr s => s = "true" ∨ s = "1"
  | .vNum n => n = 1
  | _ => false

/-- Membership of validator.ts `FALSE = ["false", "0", 0]`. -/
def isFalseLiteral : Value → Bool
  | .vStr s => s = "false" ∨ s = "0"
  | .vNum n => n = 0
  | _ => false

/-- helper.ts `stringify`: primitives to string, `null`, `undefined` and
objects (arrays, plain objects, files) to the empty string. -/
def stringify (v : Value) : String :=
  if isNullish v ∨ typeofName v = "object" then "" else jsToString v

/-- Attempt to match the tail of the regex `\[\s*(\d+)\s*\]` right after an
opening bracket: returns the captured digits and the remaining characters. -/
def matchIndexEnd (cs : List Char) : Option (List Char × List Char) :=
  let s1 := cs.dropWhile (fun c => c.isWhitespace)
  let digits := s1.takeWhile (fun c => c.isDigit)
  let s2 := (s1.dropWhile (fun c => c.isDigit)).dropWhile (fun c => c.isWhitespace)
  match digits, s2 with
  | [], _ => none
  | _, ']' :: rest => some (digits, rest)
  | _, _ => none

/-- Global left-to-right replacement of `\[\s*(\d+)\s*\]` matches, the
captured digits rewritten by `repl`.  The fuel argument only bounds the
recursion; every step consumes at least one character, so fuel equal to the
length of the input never runs out. -/
def replaceIndexAux (repl : List Char → List Char) : Nat → List Char → List Char
  | 0, _ => []
  | _ + 1, [] => []
  | fuel + 1, '[' :: cs =>
      match matchIndexEnd cs with
      | some (ds, rest) => repl ds ++ replaceIndexAux repl fuel rest
      | none => '[' :: replaceIndexAux repl fuel cs
  | fuel + 1, c :: cs => c :: replaceIndexAux repl fuel cs

/-- helper.ts `getKey`: translation key for a path, with all bracketed
numeric segments removed (`foo[1].bar` becomes `foo.bar`). -/
def getKey (path : String) : String :=
  ⟨replaceIndexAux (fun _ => []) path.data.length path.data⟩

/-- validator.ts `normalizeInput` key rewrite: `foo[0]` becomes `foo.0`
(regex `\[\s*(\d+)\s*\]` replaced by `.$1`). -/
def bracketToDot (key : String) : String :=
  ⟨replaceIndexAux (fun ds => '.' :: ds) key.data.length key.data⟩

/-- JS `String.prototype.split` on a single separator character. -/
def splitOnChar (sep : Char) : List Char → List (List Char)
  | [] => [[]]
  | c :: cs =>
      match splitOnChar sep cs with
      | [] => [[c]]
      | h :: t => if c = sep then [] :: h :: t else (c :: h) :: t

/-- The regex replace `([a-z])([A-Z])` to `l u` with a space in between,
applied globally and non-overlapping, as in `getDisplayName`. -/
def camelSpace : List Char → List Char
  | l :: u :: rest =>
      if l.isLower ∧ u.isUpper then l :: ' ' :: u :: camelSpace rest
      else l :: camelSpace (u :: rest)
  | cs => cs

/-- validator.ts `getDisplayName`: last dot-separated segment of the path,
first letter upper-cased, camelCase split by spaces. -/
def getDisplayName (path : String) : String :=
  match (splitOnChar '.' path.data).getLastD [] with
  | [] => ""
  | c :: rest => ⟨c.toUpper :: camelSpace rest⟩

/-- One entry of the error map: the stringified raw value recorded when the
entry was created, and the ordered list of messages. -/
structure ErrEntry where
  value : String
  errors : List String

/-- The error map (types.ts `Errors`): a JS record from path strings to
entries, modelled as an insertion-ordered association list with unique
keys. -/
abbrev Errors := List (String × ErrEntry)

/-- Record lookup `errors[path]`. -/
def lookupErr : Errors → String → Option ErrEntry
  | [], _ => none
  | pe :: rest, path => if pe.1 = path then some pe.2 else lookupErr rest path

/-- helper.ts `addError`: create the entry (with the stringified value) when
the path is new, otherwise append the message to the existing entry,
leaving the stored value unchanged.  The omitted-value default is
`undefined`, as in the source. -/
def addError (e : Errors) (path : String) (error : String)
    (value : Value := .vUndefined) : Errors :=
  match lookupErr e path with
  | none => e ++ [(path, ⟨stringify value, [error]⟩)]
  | some _ =>
      e.map (fun pe =>
        if pe.1 = path then (pe.1, ⟨pe.2.value, pe.2.errors ++ [error]⟩) else pe)

/-- types.ts `BasicError`: the structured descriptor handed to an error
message override. -/
inductive BasicError : Type where
  | exception (message : String)
  | required (received : String)
  | type (expected : String) (received : String)
  | array (limit : Nat) (length : Nat)

/-- types.ts `ErrorMessageOverride`: consulted before every default
message; returning `none` (JS `undefined`) keeps the default. -/
def Override : Type := String → BasicError → Option String

/-- types.ts `ValidatorOptions`. -/
structure ValidatorOptions where
  arrayLimit : Option Nat
  errorMessage : Option Override

/-- validator.ts `getErrorMessage`, code `required`. -/
def getRequiredMessage (path : String) (input : Value) (ov : Option Override) : String :=
  let key := getKey path
  match ov.bind (fun f => f key (.required (typeofName input))) with
  | some m => m
  | none => getDisplayName key ++ " is required"

/-- validator.ts `getErrorMessage`, code `type`: received is the stringified
value, or its runtime type when the stringification is empty. -/
def getTypeMessage (path : String) (input : Value) (ov : Option Override)
    (expected : String) : String :=
  let key := getKey path
  let s := stringify input
  let received := if s = "" then typeofName input else s
  match ov.bind (fun f => f key (.type expected received)) with
  | some m => m
  | none => "Expected '" ++ expected ++ "', received '" ++ received ++ "'"

/-- validator.ts `getErrorMessage`, code `array`. -/
def getArrayMessage (path : String) (arr : List Value) (ov : Option Override)
    (limit : Nat) : String :=
  let key := getKey path
  match ov.bind (fun f => f key (.array limit arr.length)) with
  | some m => m
  | none =>
      "Array length " ++ toString arr.length ++ " is greater than limit " ++ toString limit

/-- validator.ts `getErrorMessage`, code `exception` (the thrown error is
modelled by its message). -/
def getExceptionMessage (path : String) (message : String) (ov : Option Override) : String :=
  let key := getKey path
  match ov.bind (fun f => f key (.exception message)) with
  | some m => m
  | none => "Exception: " ++ message

/-- types.ts `PrimitiveType`. -/
inductive PType : Type where
  | string
  | number
  | boolean
  | bigint
  | file

/-- Name of a primitive kind (the literal tag used by the schema language
and printed in type error messages). -/
def primName : PType → String
  | .string => "string"
  | .number => "number"
  | .boolean => "boolean"
  | .bigint => "bigint"
  | .file => "file"

mutual

/-- types.ts `PropertyType`: the user-facing type descriptor (a primitive
tag, a nested record, or a single-element array wrapping a descriptor). -/
inductive PropType : Type where
  | prim (p : PType)
  | nested (fields : PFields)
  | array (elem : PropType)

/-- An ordered user schema record: keys (still carrying `?` and `:alias`
markers) with their descriptors. -/
inductive PFields : Type where
  | nil
  | cons (key : String) (ty : PropType) (rest : PFields)

end

mutual

/-- The `type` component of a parsed `Property` (types.ts `Property`). -/
inductive SType : Type where
  | prim (p : PType)
  | nested (fields : SFields)
  | array (elem : SType)

/-- An ordered record of parsed properties: `parseSchema` keys the record by
the parsed name, which is also each property's own `key`, so one list models
both. -/
inductive SFields : Type where
  | nil
  | cons (key : String) (aliasName : Option String) (optional : Bool)
      (ty : SType) (rest : SFields)

end

/-- JS `key.replace("?", "")`: only the first question mark is removed. -/
def removeFirstQ : List Char → List Char
  | [] => []
  | c :: cs => if c = '?' then cs else c :: removeFirstQ cs

/-- The key munging of `parseSchema`: a trailing question mark marks the
field optional; after removing the first question mark, the part before the
first colon is the name and the part after it (when present) the alias. -/
def parseKey (key : String) : String × Option String × Bool :=
  let optional := key.data.getLastD ' ' = '?'
  let parts := splitOnChar ':' (removeFirstQ key.data)
  let name : String := ⟨parts.headD []⟩
  let aliasName : Option String := (parts.get? 1).map (fun cs => (⟨cs⟩ : String))
  (name, aliasName, optional)

mutual

/-- Recursion of validator.ts `parseSchema` into one type descriptor. -/
def parseType : PropType → SType
  | .prim p => .prim p
  | .nested fs => .nested (parseSchema fs)
  | .array e => .array (parseType e)

/-- validator.ts `parseSchema`. -/
def parseSchema : PFields → SFields
  | .nil => .nil
  | .cons key ty rest =>
      let (name, aliasName, optional) := parseKey key
      .cons name aliasName optional (parseType ty) (parseSchema rest)

end

mutual

/-- validator.ts `defaultValue` (the checks happen in source order: string,
boolean, number, file, bigint, array, nested object). -/
def defaultValue : SType → Value
  | .prim .string => .vStr ""
  | .prim .boolean => .vBool false
  | .prim .number => .vNum 0
  | .prim .file => .vFile ""
  | .prim .bigint => .vBigInt 0
  | .array _ => .vArr []
  | .nested fs => .vObj (defaultFields fs)

/-- Defaults of a nested record, field by field in order. -/
def defaultFields : SFields → List (String × Value)
  | .nil => []
  | .cons key _ _ ty rest => (key, defaultValue ty) :: defaultFields rest

end

/-- The `type` parameter of validator.ts `coerce`:
`PrimitiveType | "array" | "object"`. -/
inductive Expected : Type where
  | object
  | array
  | prim (p : PType)

/-- The kind a property expects (validator.ts line computing `expected`). -/
def expectedOf : SType → Expected
  | .array _ => .array
  | .nested _ => .object
  | .prim p => .prim p

/-- String form of an `Expected` (JS `String(expected)` in the type error
message). -/
def expectedName : Expected → String
  | .object => "object"
  | .array => "array"
  | .prim p => primName p

/-- The one-element-array unwrap at the head of primitive coercion. -/
def unwrapSingle : Value → Value
  | .vArr [x] => x
  | v => v

/-- validator.ts `coerce`.  Failure is the sentinel `undefined`, never an
exception. -/
def coerce (input : Value) (ty : Expected) : Value :=
  match ty with
  | .object => if isObjectV input then input else .vUndefined
  | .array =>
      match input with
      | .vArr _ => input
      | _ => .vArr [input]
  | .prim p =>
      let input := unwrapSingle input
      match p with
      | .string =>
          match input with
          | .vStr _ => input
          | _ => .vStr (jsToString input)
      | .boolean =>
          match input with
          | .vBool _ => input
          | _ =>
              if isTrueLiteral input then .vBool true
              else if isFalseLiteral input then .vBool false
              else .vUndefined
      | .number =>
          match input with
          | .vNum _ => input
          | _ =>
              match jsToNumber input with
              | some n => .vNum n
              | none => .vUndefined
      | .bigint =>
          match input with
          | .vBigInt _ => input
          | _ =>
              match jsToBigInt input with
              | some n => .vBigInt n
              | none => .vUndefined
      | .file =>
          match input with
          | .vFile _ => input
          | _ => .vUndefined

/-- First-match lookup in an object field list (JS property read; absent
keys read as `undefined`). -/
def lookupField : List (String × Value) → String → Value
  | [], _ => .vUndefined
  | (k, v) :: rest, key => if k = key then v else lookupField rest key

/-- JS property read `source[key]` on the modelled fragment (non-objects
have no own properties in the fragment the validator reads). -/
def getProp (v : Value) (key : String) : Value :=
  match v with
  | .vObj fields => lookupField fields key
  | _ => .vUndefined

/-- The per-index loop of the array branch of `validate`: `f` is the
recursive validation of one element at the extended path, the error map is
threaded left to right, and the collected results model the writes
`targetArr[i]` and `safeTargetArr[i]`. -/
def elemsLoop (f : String → Value → Errors → Value × Value × Errors)
    (path : String) : List Value → Nat → Errors → List Value × List Value × Errors
  | [], _, errors => ([], [], errors)
  | x :: rest, i, errors =>
      let (r, s, e) := f (path ++ "[" ++ toString i ++ "]") x errors
      let (rs, ss, e2) := elemsLoop f path rest (i + 1) e
      (r :: rs, s :: ss, e2)

mutual

/-- validator.ts `validate` for a non-root field, with mutation replaced by
returns: the result is `(target[key], safeTarget[key], errors)`, the render
write, the safe write and the threaded error map.  The root call of the
source (whose property is the whole schema record and whose input is
already known to be a plain object) is modelled separately inside
`runValidator` by `validateFields` at the empty path; schema field names
are assumed non-empty so a non-root path is never the empty string. -/
def validateValue (path : String) (optional : Bool) (ty : SType) (input : Value)
    (opts : ValidatorOptions) (errors : Errors) : Value × Value × Errors :=
  if isNullish input then
    let errors :=
      if optional then errors
      else addError errors path (getRequiredMessage path input opts.errorMessage) input
    ((match ty with | .array _ => .vArr [] | _ => input), defaultValue ty, errors)
  else
    let expected := expectedOf ty
    let value := coerce input expected
    if isNullish value then
      let errors :=
        addError errors path (getTypeMessage path input opts.errorMessage (expectedName expected)) input
      (value, defaultValue ty, errors)
    else
      match ty with
      | .prim _ => (value, defaultValue ty, errors)
      | .array et =>
          let xs := match value with | .vArr l => l | _ => []
          let limit := opts.arrayLimit.getD 50
          if xs.length > limit then
            (.vArr [], .vArr [], addError errors path (getArrayMessage path xs opts.errorMessage limit))
          else
            let (rs, ss, e) :=
              elemsLoop (fun p x er => validateValue p false et x opts er) path xs 0 errors
            (.vArr rs, .vArr ss, e)
      | .nested fs =>
          let (rs, ss, e) := validateFields path fs value opts errors
          (.vObj rs, .vObj ss, e)

/-- The child loop of the nested-object branch of `validate`: resolves each
field's raw input through its alias, extends the path (no leading dot at
the root) and collects the render and safe objects in schema order. -/
def validateFields (path : String) (fs : SFields) (src : Value)
    (opts : ValidatorOptions) (errors : Errors) :
    List (String × Value) × List (String × Value) × Errors :=
  match fs with
  | .nil => ([], [], errors)
  | .cons key aliasName optional ty rest =>
      let input := getProp src (aliasName.getD key)
      let childPath := if path = "" then key else path ++ "." ++ key
      let (r, s, e) := validateValue childPath optional ty input opts errors
      let (rs, ss, e2) := validateFields path rest src opts e
      ((key, r) :: rs, (key, s) :: ss, e2)

end

/-- A value dset can walk into (JS `typeof x === "object"` on the values a
fresh normalization source can contain). -/
def isContainer : Value → Bool
  | .vArr _ => true
  | .vObj _ => true
  | _ => false

/-- JS property write on an object: replace in place, or append (insertion
order). -/
def setField : List (String × Value) → String → Value → List (String × Value)
  | [], k, v => [(k, v)]
  | (k0, v0) :: rest, k, v =>
      if k0 = k then (k0, v) :: rest else (k0, v0) :: setField rest k v

/-- A canonical JS array index property name: a digit string with no
leading zero. -/
def canonIndex (s : String) : Option Nat :=
  match s.data with
  | [] => none
  | ['0'] => some 0
  | '0' :: _ => none
  | ds => if ds.all Char.isDigit then some (digitsToNat ds) else none

/-- JS array element read (out of range reads `undefined`). -/
def getIndex (xs : List Value) (i : Nat) : Value := (xs.get? i).getD .vUndefined

/-- JS array element write, padding a sparse tail with `undefined`. -/
def setElem (xs : List Value) (i : Nat) (v : Value) : List Value :=
  if i < xs.length then xs.set i v
  else xs ++ List.replicate (i - xs.length) .vUndefined ++ [v]

/-- The read `t[k]` during the dset walk. -/
def readKey (t : Value) (k : String) : Value :=
  match t with
  | .vObj fields => lookupField fields k
  | .vArr xs =>
      match canonIndex k with
      | some i => getIndex xs i
      | none => .vUndefined
  | _ => .vUndefined

/-- The write `t[k] = v` during the dset walk (writes to non-containers, or
non-index writes on arrays, are outside the fragment normalization
produces). -/
def writeKey (t : Value) (k : String) (v : Value) : Value :=
  match t with
  | .vObj fields => .vObj (setField fields k v)
  | .vArr xs =>
      match canonIndex k with
      | some i => .vArr (setElem xs i v)
      | none => t
  | _ => t

/-- The dset guard against prototype pollution: these keys stop the walk. -/
def isProtoKey (k : String) : Bool :=
  k = "__proto__" ∨ k = "constructor" ∨ k = "prototype"

/-- The dset walk over already-split path segments: intermediate containers
are reused when present, otherwise created as an array when the next
segment is numeric and as an object otherwise. -/
def dsetKeys (t : Value) : List String → Value → Value
  | [], _ => t
  | [k], v => if isProtoKey k then t else writeKey t k v
  | k :: k2 :: rest, v =>
      if isProtoKey k then t
      else
        let x := readKey t k
        let child :=
          if isContainer x then x
          else if (jsStrToNum k2).isSome then Value.vArr [] else Value.vObj []
        writeKey t k (dsetKeys child (k2 :: rest) v)

/-- The dset package's `dset(obj, path, value)`: split the dotted path and
walk. -/
def dset (t : Value) (path : String) (v : Value) : Value :=
  dsetKeys t ((splitOnChar '.' path.data).map (fun cs => (⟨cs⟩ : String))) v

/-- `input.getAll(key)` of a flat multi-valued source, in submission
order. -/
def formGetAll (pairs : List (String × String)) (key : String) : List Value :=
  (pairs.filter (fun p => p.1 == key)).map (fun p => Value.vStr p.2)

/-- The two accepted input shapes: a plain structured value, or a flat
multi-valued key/value source (FormData / URLSearchParams submission
semantics, values restricted to strings). -/
inductive ValidatorInput : Type where
  | direct (v : Value)
  | form (pairs : List (String × String))

/-- validator.ts `normalizeInput`: a flat source is folded key by key (in
submission order, repeated keys revisited idempotently) into a fresh nested
object; anything else passes through unchanged. -/
def normalizeInput : ValidatorInput → Value
  | .direct v => v
  | .form pairs =>
      pairs.foldl (fun src p => dset src (bracketToDot p.1) (.vArr (formGetAll pairs p.1)))
        (.vObj [])

/-- The received-shape description of validator.ts `isValidInput`: `array`
for arrays, `null` for null, otherwise the constructor name (falling back
to `typeof` for `undefined`). -/
def constructorDescription : Value → String
  | .vArr _ => "array"
  | .vNull => "null"
  | .vUndefined => "undefined"
  | .vStr _ => "String"
  | .vNum _ => "Number"
  | .vBool _ => "Boolean"
  | .vBigInt _ => "BigInt"
  | .vFile _ => "File"
  | .vObj _ => "Object"

/-- validator.ts `isValidInput`: accept plain objects; otherwise record a
root `type` error (expected object) and reject. -/
def isValidInputCheck (input : Value) (opts : ValidatorOptions) (errors : Errors) :
    Bool × Errors :=
  if isObjectV input then (true, errors)
  else
    let msg := getTypeMessage "" (.vStr (constructorDescription input)) opts.errorMessage "object"
    (false, addError errors "" msg)

/-- The target carried by the helper proxy: the current dotted/bracketed
path and the current raw value. -/
structure Target where
  path : String
  value : Value

/-- helper.ts `makePath`: numeric property names (by JS `Number`, so for
example the empty string is numeric) extend the path with a bracketed
index, others with a dot-separated (no leading dot) field name. -/
def makePath (currentPath : String) (prop : String) : String :=
  match jsStrToNum prop with
  | some index => currentPath ++ "[" ++ toString index ++ "]"
  | none => (if currentPath = "" then "" else currentPath ++ ".") ++ prop

/-- Child navigation of the helper proxy (the last branch of its `get`
trap, reached for properties other than the intercepted `length`, `push`,
`path`, `value`, `errors` and the iterator): always yields a new navigator;
on a non-array non-object parent the child raw value is `undefined`. -/
def navChild (t : Target) (prop : String) : Target :=
  let path := makePath t.path prop
  let value :=
    match t.value with
    | .vArr xs =>
        match canonIndex prop with
        | some i => getIndex xs i
        | none => .vUndefined
    | .vObj fields => lookupField fields prop
    | _ => .vUndefined
  ⟨path, value⟩

/-- The `value` terminal of the proxy (form-helper mode): the stringified
raw value, falling back to the value recorded in the error map at this
path. -/
def navValue (errors : Errors) (t : Target) : String :=
  let v :=
    if isNullish t.value then
      match lookupErr errors t.path with
      | some ent => Value.vStr ent.value
      | none => Value.vUndefined
    else t.value
  stringify v

/-- The `errors` terminal of the proxy: messages recorded at exactly this
path, or the empty list. -/
def navErrors (errors : Errors) (t : Target) : List String :=
  match lookupErr errors t.path with
  | some ent => ent.errors
  | none => []

/-- The argument of the proxy's `push`: a message, or a localization
function from the index-stripped key to a message. -/
inductive PushArg : Type where
  | msg (s : String)
  | keyToMessage (f : String → String)

/-- The `push` terminal of the proxy (issues mode): a function argument is
applied to the index-stripped key, and the resulting message is recorded at
this exact path together with this navigator's raw value. -/
def navPush (errors : Errors) (t : Target) (arg : PushArg) : Errors :=
  let message :=
    match arg with
    | .msg s => s
    | .keyToMessage f => f (getKey t.path)
  addError errors t.path message t.value

/-- The root navigator over a raw value (`proxy(input, errors)`). -/
def rootTarget (input : Value) : Target := ⟨"", input⟩

/-- The observable outcome of a custom callback run: the error map after
its pushes, or additionally a thrown failure (modelled by its message);
pushes made before a throw persist, as they do in the source. -/
inductive CallbackOutcome : Type where
  | normal (errors : Errors)
  | thrown (errors : Errors) (message : String)

/-- A custom validation callback, as its observable effect: it sees the
safe data and the issues navigator root (over the raw input) and transforms
the error map, possibly throwing. -/
def Callback : Type := Value → Target → Errors → CallbackOutcome

/-- types.ts `ValidationResult` (data is the render tree). -/
structure ValidationResult where
  success : Bool
  data : Value
  errors : Errors

/-- validator.ts `schemaValidator`'s returned function: normalize the
input, reject non-objects with a single root error, otherwise run the
structural pass from the root and then the optional callback, demoting a
thrown callback failure to a single root `exception` error; `success` is
the emptiness of the final error map, and `data` is the render tree. -/
def runValidator (ty : SFields) (rawInput : ValidatorInput) (opts : ValidatorOptions)
    (cb : Option Callback) : ValidationResult :=
  let input := normalizeInput rawInput
  let (ok, errors0) := isValidInputCheck input opts []
  let (data, errors) :=
    if ok then
      let (rs, ss, e) := validateFields "" ty input opts errors0
      let e2 :=
        match cb with
        | none => e
        | some f =>
            match f (.vObj ss) (rootTarget input) e with
            | .normal e3 => e3
            | .thrown e3 message =>
                addError e3 "" (getExceptionMessage "" message opts.errorMessage)
      (Value.vObj rs, e2)
    else
      (Value.vObj [], errors0)
  { success := errors.isEmpty, data := data, errors := errors }

/-- Validator options with neither an array limit nor a message override. -/
def noOptions : ValidatorOptions := ⟨none, none⟩

/-- The spec example schema: required string `name`, required number `age`,
optional string `nickname`. -/
def nameAgeSchema : PFields :=
  .cons "name" (.prim .string)
    (.cons "age" (.prim .number) (.cons "nickname?" (.prim .string) .nil))

/-- The spec example input. -/
def nameAgeInput : Value := .vObj [("name", .vStr "Jo"), ("age", .vStr "20x")]

/-- A schema with one string-array field `foo`, for the round-trip
property. -/
def fooArraySchema : PFields := .cons "foo" (.array (.prim .string)) .nil

/-- A schema with one number field named `alias`, read from the input key
`aka`. -/
def aliasNumberSchema : PFields := .cons "alias:aka" (.prim .number) .nil

/-- An input whose raw value under the alias key (read by the structural
pass) differs from its raw value under the field name (read by the issues
navigator). -/
def aliasInput : Value := .vObj [("aka", .vStr "x"), ("alias", .vStr "y")]

/-- A callback that pushes one message at the `alias` field through the
issues navigator. -/
def aliasPushCallback : Callback := fun _ issues e =>
  .normal (navPush e (navChild issues "alias") (.msg "custom"))

/-- A callback that does nothing but throw, modelling
`() => { throw new Error(message) }`. -/
def throwingCallback (message : String) : Callback := fun _ _ e => .thrown e message

/-! Helper lemmas about the error map. -/

theorem lookupErr_append_of_none (e1 e2 : Errors) (p : String)
    (h : lookupErr e1 p = none) : lookupErr (e1 ++ e2) p = lookupErr e2 p := by
  induction e1 with
  | nil => simp
  | cons pe rest ih =>
      by_cases hc : pe.1 = p
      · simp [lookupErr, hc] at h
      · rw [List.cons_append]
        simp only [lookupErr, hc, if_false]
        exact ih (by simpa [lookupErr, hc] using h)

theorem lookupErr_append_single_ne (e : Errors) (p : String) (ent : ErrEntry)
    (q : String) (hq : q ≠ p) : lookupErr (e ++ [(p, ent)]) q = lookupErr e q := by
  induction e with
  | nil => simp [lookupErr, (Ne.symm hq : p ≠ q)]
  | cons pe rest ih =>
      rw [List.cons_append]
      by_cases hc : pe.1 = q <;> simp [lookupErr, hc, ih]

theorem lookupErr_map_append_msg (e : Errors) (p m : String) (old : ErrEntry)
    (h : lookupErr e p = some old) :
    lookupErr (e.map fun pe =>
        if pe.1 = p then (pe.1, ⟨pe.2.value, pe.2.errors ++ [m]⟩) else pe) p
      = some ⟨old.value, old.errors ++ [m]⟩ := by
  induction e with
  | nil => simp [lookupErr] at h
  | cons pe rest ih =>
      by_cases hc : pe.1 = p
      · simp only [lookupErr, hc, if_pos, Option.some.injEq] at h
        simp [lookupErr, hc, h]
      · simp only [lookupErr, hc, if_false] at h
        simp [lookupErr, hc, ih h]

theorem lookupErr_map_append_msg_ne (e : Errors) (p m : String) (q : String)
    (hq : q ≠ p) :
    lookupErr (e.map fun pe =>
        if pe.1 = p then (pe.1, ⟨pe.2.value, pe.2.errors ++ [m]⟩) else pe) q
      = lookupErr e q := by
  induction e with
  | nil => rfl
  | cons pe rest ih =>
      rw [List.map_cons]
      by_cases hc : pe.1 = p
      · have hne : pe.1 ≠ q := fun h => hq (h.symm.trans hc)
        rw [if_pos hc]
        simp only [lookupErr, if_neg hne]
        exact ih
      · rw [if_neg hc]
        simp only [lookupErr]
        by_cases hc2 : pe.1 = q
        · rw [if_pos hc2, if_pos hc2]
        · rw [if_neg hc2, if_neg hc2]
          exact ih

theorem addError_lookup_ne (e : Errors) (p m : String) (v : Value) (q : String)
    (hq : q ≠ p) : lookupErr (addError e p m v) q = lookupErr e q := by
  unfold addError
  cases h : lookupErr e p with
  | none => exact lookupErr_append_single_ne e p _ q hq
  | some old => exact lookupErr_map_append_msg_ne e p m q hq

theorem runValidator_success_eq (ty : SFields) (input : ValidatorInput)
    (opts : ValidatorOptions) (cb : Option Callback) :
    (runValidator ty input opts cb).success = (runValidator ty input opts cb).errors.isEmpty := rfl

/-! Error locality of the recursive validator: validating at a path only
touches error entries at that path or at dotted/bracketed extensions of it,
so lookups anywhere else are unchanged. -/

theorem elemsLoop_lookup_outside
    (f : String → Value → Errors → Value × Value × Errors) (path : String) (q : String)
    (hf : ∀ (i : Nat) (x : Value) (er : Errors),
      lookupErr (f (path ++ "[" ++ toString i ++ "]") x er).2.2 q = lookupErr er q) :
    ∀ (xs : List Value) (i : Nat) (er : Errors),
      lookupErr (elemsLoop f path xs i er).2.2 q = lookupErr er q := by
  intro xs
  induction xs with
  | nil => intro i er; rfl
  | cons x rest ih =>
      intro i er
      unfold elemsLoop
      rcases h1 : f (path ++ "[" ++ toString i ++ "]") x er with ⟨r, s, e⟩
      dsimp only
      rcases h2 : elemsLoop f path rest (i + 1) e with ⟨rs, ss, e2⟩
      show lookupErr e2 q = lookupErr er q
      have hx := hf i x er
      rw [h1] at hx
      have hrest := ih (i + 1) e
      rw [h2] at hrest
      exact hrest.trans hx

mutual

theorem validateValue_lookup_outside (path : String) (optional : Bool) (ty : SType)
    (input : Value) (opts : ValidatorOptions) (errors : Errors) (q : String)
    (hq : ∀ s, q ≠ path ++ s) :
    lookupErr (validateValue path optional ty input opts errors).2.2 q = lookupErr errors q := by
  have hqp : q ≠ path := by
    have h0 := hq ""
    rwa [String.append_empty] at h0
  cases ty with
  | prim p =>
      unfold validateValue
      dsimp only
      split
      · split
        · rfl
        · exact addError_lookup_ne errors path _ input q hqp
      · split
        · exact addError_lookup_ne errors path _ input q hqp
        · rfl
  | array et =>
      have hq' : ∀ (i : Nat) (s : String), q ≠ path ++ "[" ++ toString i ++ "]" ++ s := by
        intro i s hcontra
        apply hq ("[" ++ (toString i ++ ("]" ++ s)))
        simpa [String.append_assoc] using hcontra
      have hf : ∀ (i : Nat) (x : Value) (er : Errors),
          lookupErr (validateValue (path ++ "[" ++ toString i ++ "]") false et x opts er).2.2 q
            = lookupErr er q :=
        fun i x er =>
          validateValue_lookup_outside (path ++ "[" ++ toString i ++ "]") false et x opts er q
            (fun s => hq' i s)
      unfold validateValue
      dsimp only
      split
      · split
        · rfl
        · exact addError_lookup_ne errors path _ input q hqp
      · split
        · exact addError_lookup_ne errors path _ input q hqp
        · split
          · exact addError_lookup_ne errors path _ _ q hqp
          · exact elemsLoop_lookup_outside _ path q hf _ 0 errors
  | nested fs =>
      have hq2 : ∀ (k s : String), q ≠ (if path = "" then k else path ++ "." ++ k) ++ s := by
        intro k s
        by_cases hp : path = ""
        · rw [if_pos hp]
          intro hcontra
          exact hq (k ++ s) (by rw [hp, String.empty_append]; exact hcontra)
        · rw [if_neg hp]
          intro hcontra
          apply hq ("." ++ (k ++ s))
          simpa [String.append_assoc] using hcontra
      have hF := validateFields_lookup_outside path fs (coerce input (expectedOf (.nested fs)))
          opts errors q hq2
      unfold validateValue
      dsimp only
      split
      · split
        · rfl
        · exact addError_lookup_ne errors path _ input q hqp
      · split
        · exact addError_lookup_ne errors path _ input q hqp
        · exact hF

theorem validateFields_lookup_outside (path : String) (fs : SFields) (src : Value)
    (opts : ValidatorOptions) (errors : Errors) (q : String)
    (hq : ∀ (k s : String), q ≠ (if path = "" then k else path ++ "." ++ k) ++ s) :
    lookupErr (validateFields path fs src opts errors).2.2 q = lookupErr errors q := by
  cases fs with
  | nil => rfl
  | cons key aliasName optional ty rest =>
      unfold validateFields
      dsimp only
      rcases h1 : validateValue (if path = "" then key else path ++ "." ++ key) optional ty
          (getProp src (aliasName.getD key)) opts errors with ⟨r, s, e⟩
      dsimp only
      rcases h2 : validateFields path rest src opts e with ⟨rs, ss, e2⟩
      show lookupErr e2 q = lookupErr errors q
      have hx := validateValue_lookup_outside (if path = "" then key else path ++ "." ++ key)
          optional ty (getProp src (aliasName.getD key)) opts errors q (fun s => hq key s)
      rw [h1] at hx
      have hr := validateFields_lookup_outside path rest src opts e q hq
      rw [h2] at hr
      exact hr.trans hx

end

/-! Claim theorems. -/

/-- C1 (code bug): for a schema field of primitive kind whose input coerces
successfully, the source is claimed to set both the render entry and the
safe entry to the coerced value, but the code sets the safe entry to the
kind default instead: for the schema with one number field `age` and input
`age = 20`, coercion succeeds with 20 and the render entry is 20, yet the
safe entry is the default 0, which differs from the coerced value. -/
theorem c1_safe_data_gets_default_not_coerced_value :
    coerce (.vNum 20) (expectedOf (.prim .number)) = .vNum 20
    ∧ validateFields "" (parseSchema (.cons "age" (.prim .number) .nil))
        (.vObj [("age", .vNum 20)]) noOptions [] =
        ([("age", .vNum 20)], [("age", .vNum 0)], [])
    ∧ Value.vNum 0 ≠ Value.vNum 20 := by
  refine ⟨rfl, rfl, fun h => ?_⟩
  injection h with h2
  exact absurd h2 (by decide)

/-- C2: for every schema, input, options and optional callback, the result
has `success = true` exactly when the error map is empty after both the
structural pass and the callback phase (a thrown callback failure having
been demoted into that same map). -/
theorem c2_success_iff_errors_empty (ty : SFields) (input : ValidatorInput)
    (opts : ValidatorOptions) (cb : Option Callback) :
    (runValidator ty input opts cb).success = true
      ↔ (runValidator ty input opts cb).errors = [] := by
  rw [runValidator_success_eq]
  generalize (runValidator ty input opts cb).errors = l
  cases l <;> simp [List.isEmpty]

/-- Witness for C2 at a concrete schema, input, options and absent
callback. -/
theorem c2_success_iff_errors_empty_witness :
    (runValidator (parseSchema nameAgeSchema) (.direct nameAgeInput) noOptions none).success = true
      ↔ (runValidator (parseSchema nameAgeSchema) (.direct nameAgeInput) noOptions none).errors = [] :=
  c2_success_iff_errors_empty (parseSchema nameAgeSchema) (.direct nameAgeInput) noOptions none

/-- C5: for the schema with required `name` string, required `age` number
and optional `nickname` string, and the input `name = Jo`, `age = 20x`,
validation fails, the `age` entry holds the default type message written
with the received text 20x, the render data has `nickname` undefined and
`name` equal to Jo. -/
theorem c5_spec_example_name_age_nickname :
    (runValidator (parseSchema nameAgeSchema) (.direct nameAgeInput) noOptions none).success = false
    ∧ lookupErr (runValidator (parseSchema nameAgeSchema) (.direct nameAgeInput) noOptions none).errors "age"
        = some ⟨"20x", ["Expected 'number', received '20x'"]⟩
    ∧ getProp (runValidator (parseSchema nameAgeSchema) (.direct nameAgeInput) noOptions none).data "nickname"
        = .vUndefined
    ∧ getProp (runValidator (parseSchema nameAgeSchema) (.direct nameAgeInput) noOptions none).data "name"
        = .vStr "Jo" :=
  ⟨rfl, rfl, rfl, rfl⟩

/-- C6: an optional field whose resolved input is nullish records no error
at all (in particular no required error), renders as an empty array for an
array-typed field and as the raw missing value otherwise, and its safe
entry is the kind default; the defaults are the empty string, 0, false, 0
as bigint, the empty file, the empty array, and the fully defaulted nested
object; no descent into the subtree happens. -/
theorem c6_optional_missing_field (path : String) (ty : SType)
    (opts : ValidatorOptions) (errors : Errors) :
    (∀ input, isNullish input = true →
      validateValue path true ty input opts errors =
        ((match ty with | .array _ => .vArr [] | _ => input), defaultValue ty, errors))
    ∧ defaultValue (.prim .string) = .vStr ""
    ∧ defaultValue (.prim .number) = .vNum 0
    ∧ defaultValue (.prim .boolean) = .vBool false
    ∧ defaultValue (.prim .bigint) = .vBigInt 0
    ∧ defaultValue (.prim .file) = .vFile ""
    ∧ (∀ et, defaultValue (.array et) = .vArr [])
    ∧ (∀ fs, defaultValue (.nested fs) = .vObj (defaultFields fs)) := by
  refine ⟨fun input h => ?_, rfl, rfl, rfl, rfl, rfl, fun et => rfl, fun fs => rfl⟩
  unfold validateValue
  simp [h]

/-- Witness for C6: the optional nullish branch evaluated at a concrete
field. -/
theorem c6_optional_missing_field_witness :
    isNullish .vNull = true
    ∧ validateValue "nickname" true (.prim .string) .vNull noOptions []
        = (.vNull, .vStr "", []) :=
  ⟨rfl, (c6_optional_missing_field "nickname" (.prim .string) noOptions []).1 .vNull rfl⟩

/-- C8: navigating the issues proxy through `object`, `list`, index 1 and
`field` yields the exact path key `object.list[1].field`; pushing a
function-valued error there records, at exactly that key, the message the
function returns when applied to the index-stripped key
`object.list.field`, together with this navigator's raw value. -/
theorem c8_path_and_localization_key_stability (input : Value) (errors : Errors)
    (f : String → String) :
    (navChild (navChild (navChild (navChild (rootTarget input) "object") "list") "1") "field").path
      = "object.list[1].field"
    ∧ navPush errors
        (navChild (navChild (navChild (navChild (rootTarget input) "object") "list") "1") "field")
        (.keyToMessage f)
      = addError errors "object.list[1].field" (f "object.list.field")
          (navChild (navChild (navChild (navChild (rootTarget input) "object") "list") "1") "field").value :=
  ⟨rfl, rfl⟩

/-- C9 (counterexample): the stored `value` of an error entry is not the
raw input of the most recent error at that path.  With the aliased number
field `alias:aka` and input `aka = x`, `alias = y`, the structural pass
records a type error at `alias` with raw input `x`; the callback then
pushes a second error there through the issues navigator, whose raw value
at `alias` is `y`; the stored value remains `x`, not the stringification
`y` of the most recent raw input. -/
theorem c9_counterexample_value_is_first_not_last :
    (runValidator (parseSchema aliasNumberSchema) (.direct aliasInput) noOptions
        (some aliasPushCallback)).errors
      = [("alias", ⟨"x", ["Expected 'number', received 'x'", "custom"]⟩)]
    ∧ (navChild (rootTarget aliasInput) "alias").value = .vStr "y"
    ∧ stringify (.vStr "y") = "y"
    ∧ ("x" : String) ≠ "y" :=
  ⟨rfl, rfl, rfl, by decide⟩

/-- C9 (amended): for every error map, path, message and raw value, the
entry after recording an error holds all previous messages with the new
message appended, and its stored `value` is the stringified raw input
supplied with the first error recorded at that path: the stringification of
the new raw value when the path is new, and the unchanged previously stored
value otherwise. -/
theorem c9_amended_value_fixed_by_first_error (e : Errors) (path m : String) (v : Value) :
    lookupErr (addError e path m v) path =
      some ⟨(match lookupErr e path with
             | none => stringify v
             | some old => old.value),
            (match lookupErr e path with
             | none => ([] : List String)
             | some old => old.errors) ++ [m]⟩ := by
  unfold addError
  cases h : lookupErr e path with
  | none =>
      rw [lookupErr_append_of_none e _ path h]
      simp [lookupErr]
  | some old => simpa using lookupErr_map_append_msg e path m old h

/-- C10: property access on a navigator is total: a child navigator always
exists, with the path extended by `makePath`; when the parent raw value is
neither an array nor a plain object the child raw value is `undefined`; and
reading `errors` at a path with no recorded entry yields the empty list. -/
theorem c10_navigation_total (t : Target) (prop : String) (e : Errors) (t2 : Target)
    (h1 : isArrayV t.value = false) (h2 : isObjectV t.value = false)
    (h3 : lookupErr e t2.path = none) :
    (navChild t prop).value = .vUndefined
    ∧ (navChild t prop).path = makePath t.path prop
    ∧ navErrors e t2 = [] := by
  refine ⟨?_, rfl, ?_⟩
  · unfold navChild
    cases hv : t.value <;> simp_all [isArrayV, isObjectV]
  · unfold navErrors
    rw [h3]

/-- C3: a custom callback that throws is caught at the call boundary and
recorded as a single error at the root path: when the structural pass left
no root entry, the final error map is the structural map with exactly one
root entry appended, holding the chosen exception message; with no override
that message is the default built from the thrown message, and when an
override returns a defined string for key the empty string and kind
exception, that string is recorded instead.  The validator returns this
result normally, so the exception never reaches its caller. -/
theorem c3_callback_exception_demoted_to_root (ty : SFields)
    (fields : List (String × Value)) (opts : ValidatorOptions)
    (hroot : lookupErr (validateFields "" ty (.vObj fields) opts []).2.2 "" = none) :
    (runValidator ty (.direct (.vObj fields)) opts (some (throwingCallback "boom"))).errors
      = (validateFields "" ty (.vObj fields) opts []).2.2
          ++ [("", ⟨"", [getExceptionMessage "" "boom" opts.errorMessage]⟩)]
    ∧ lookupErr (runValidator ty (.direct (.vObj fields)) opts
          (some (throwingCallback "boom"))).errors ""
        = some ⟨"", [getExceptionMessage "" "boom" opts.errorMessage]⟩
    ∧ (opts.errorMessage = none → getExceptionMessage "" "boom" opts.errorMessage = "Exception: boom")
    ∧ (∀ f s, opts.errorMessage = some f → f "" (.exception "boom") = some s →
        getExceptionMessage "" "boom" opts.errorMessage = s) := by
  have hmain : (runValidator ty (.direct (.vObj fields)) opts (some (throwingCallback "boom"))).errors
      = (validateFields "" ty (.vObj fields) opts []).2.2
          ++ [("", ⟨"", [getExceptionMessage "" "boom" opts.errorMessage]⟩)] := by
    unfold runValidator
    rcases hV : validateFields "" ty (.vObj fields) opts [] with ⟨rs, ss, e⟩
    have he : (validateFields "" ty (.vObj fields) opts []).2.2 = e := by rw [hV]
    rw [he] at hroot
    simp only [normalizeInput, isValidInputCheck, isObjectV, if_pos, hV, throwingCallback]
    unfold addError
    rw [hroot]
    rfl
  refine ⟨hmain, ?_, ?_, ?_⟩
  · rw [hmain]
    rw [lookupErr_append_of_none _ _ _ hroot]
    simp [lookupErr]
  · intro h
    rw [h]
    rfl
  · intro f s hf hs
    simp only [getExceptionMessage, hf]
    rw [show getKey "" = "" from rfl]
    simp [hs]

/-- Witness for C3: the schema with fields name, age and optional nickname,
a valid input, and the throwing callback; with no override the root entry
holds the default exception message. -/
theorem c3_callback_exception_demoted_to_root_witness :
    lookupErr (validateFields "" (parseSchema nameAgeSchema)
        (.vObj [("name", Value.vStr "Jo"), ("age", Value.vNum 5)]) noOptions []).2.2 "" = none
    ∧ lookupErr (runValidator (parseSchema nameAgeSchema)
        (.direct (.vObj [("name", Value.vStr "Jo"), ("age", Value.vNum 5)])) noOptions
        (some (throwingCallback "boom"))).errors ""
      = some ⟨"", ["Exception: boom"]⟩ :=
  ⟨rfl, by
    exact (c3_callback_exception_demoted_to_root (parseSchema nameAgeSchema)
      [("name", Value.vStr "Jo"), ("age", Value.vNum 5)] noOptions rfl).2.1⟩

/-- C4: for an array field receiving a sequence, when the sequence is
strictly longer than the configured limit (default 50) the result is empty
render and safe arrays and exactly one array error recorded at the field's
path, with no per-element validation; when the length is at most the limit,
no error is recorded at the field's path and the result is exactly the
in-order per-element validation loop, whose paths extend the field path
with the bracketed index. -/
theorem c4_array_limit (path : String) (et : SType) (xs : List Value)
    (opts : ValidatorOptions) (errors : Errors) :
    (xs.length > opts.arrayLimit.getD 50 →
      validateValue path false (.array et) (.vArr xs) opts errors
        = (.vArr [], .vArr [],
            addError errors path
              (getArrayMessage path xs opts.errorMessage (opts.arrayLimit.getD 50))))
    ∧ (xs.length ≤ opts.arrayLimit.getD 50 →
      validateValue path false (.array et) (.vArr xs) opts errors
        = (match elemsLoop (fun p x er => validateValue p false et x opts er) path xs 0 errors with
           | (rs, ss, e) => (.vArr rs, .vArr ss, e))
      ∧ lookupErr (validateValue path false (.array et) (.vArr xs) opts errors).2.2 path
          = lookupErr errors path) := by
  have hred : validateValue path false (.array et) (.vArr xs) opts errors
      = if xs.length > opts.arrayLimit.getD 50
        then (.vArr [], .vArr [],
          addError errors path
            (getArrayMessage path xs opts.errorMessage (opts.arrayLimit.getD 50)))
        else (match elemsLoop (fun p x er => validateValue p false et x opts er) path xs 0 errors with
           | (rs, ss, e) => (.vArr rs, .vArr ss, e)) := rfl
  constructor
  · intro h
    rw [hred, if_pos h]
  · intro h
    have hnot : ¬ xs.length > opts.arrayLimit.getD 50 := by omega
    have heq : validateValue path false (.array et) (.vArr xs) opts errors
        = (match elemsLoop (fun p x er => validateValue p false et x opts er) path xs 0 errors with
           | (rs, ss, e) => (.vArr rs, .vArr ss, e)) := by
      rw [hred, if_neg hnot]
    refine ⟨heq, ?_⟩
    rw [heq]
    have hqp : ∀ (i : Nat) (s : String), path ≠ path ++ "[" ++ toString i ++ "]" ++ s := by
      intro i s hcontra
      have hlen := congrArg String.length hcontra
      simp only [String.length_append] at hlen
      have h1 : ("[" : String).length = 1 := rfl
      have h2 : ("]" : String).length = 1 := rfl
      omega
    rcases hX : elemsLoop (fun p x er => validateValue p false et x opts er) path xs 0 errors
      with ⟨rs, ss, e⟩
    show lookupErr e path = lookupErr errors path
    have hloop := elemsLoop_lookup_outside
      (fun p x er => validateValue p false et x opts er) path path
      (fun i x er => validateValue_lookup_outside (path ++ "[" ++ toString i ++ "]")
        false et x opts er path (fun s => hqp i s))
      xs 0 errors
    rw [hX] at hloop
    exact hloop

/-- Witness for C4: three elements against a limit of two yield the single
array error and empty targets. -/
theorem c4_array_limit_witness :
    3 > (⟨some 2, none⟩ : ValidatorOptions).arrayLimit.getD 50
    ∧ validateValue "array" false (.array (.prim .string))
        (.vArr [.vStr "a", .vStr "b", .vStr "c"]) ⟨some 2, none⟩ []
      = (.vArr [], .vArr [],
          addError [] "array"
            (getArrayMessage "array" [.vStr "a", .vStr "b", .vStr "c"] none 2)) :=
  ⟨by decide, by
    exact (c4_array_limit "array" (.prim .string) [.vStr "a", .vStr "b", .vStr "c"]
      ⟨some 2, none⟩ []).1 (by decide)⟩

/-- C7: round trip between the input normalizer and direct nested input:
for the schema declaring `foo` as a string array and any validation
options, validating the flat multi-valued source with entries `foo[0] = a`
and `foo[1] = b` returns the same validation result (same success, data and
errors) as validating the nested value with `foo` equal to the two-element
string array directly. -/
theorem c7_normalizer_roundtrip (opts : ValidatorOptions) :
    runValidator (parseSchema fooArraySchema) (.form [("foo[0]", "a"), ("foo[1]", "b")]) opts none
      = runValidator (parseSchema fooArraySchema)
          (.direct (.vObj [("foo", .vArr [.vStr "a", .vStr "b"])])) opts none := rfl

/-- Witness for C10 at a concrete primitive-valued navigator and an empty
error map. -/
theorem c10_navigation_total_witness :
    (isArrayV (Value.vNum 3) = false ∧ isObjectV (Value.vNum 3) = false
      ∧ lookupErr [] "b" = none)
    ∧ ((navChild ⟨"a", Value.vNum 3⟩ "foo").value = .vUndefined
      ∧ (navChild ⟨"a", Value.vNum 3⟩ "foo").path = makePath "a" "foo"
      ∧ navErrors [] ⟨"b", Value.vNull⟩ = []) :=
  ⟨⟨rfl, rfl, rfl⟩,
    c10_navigation_total ⟨"a", Value.vNum 3⟩ "foo" [] ⟨"b", Value.vNull⟩ rfl rfl rfl⟩

end Pukka
